import Mathlib

/-!
Verification of the stock-analysis pipeline (`stock_analysis.py`).

The development shallowly embeds the program's own logic: the technical
indicator computations done with pandas (`get_stock_data`), the prompt
assembly (`generate_analysis_prompt`), the insider-trade table parsing
(`get_insider_trades`), the colorizing presentation layer
(`format_analysis`) and the control flow of `main`.

Modelling conventions:
- floats are modelled as `ℚ`; a pandas NaN entry of an indicator column is
  modelled as `none` in a `List (Option ℚ)` aligned with the series;
- a raised Python exception is modelled as `Except.error`;
- `str.strip` is modelled by `pyStrip` below.
-/

namespace StockAnalysis

/-! ## Series primitives (pandas semantics) -/

/-- `xs.rolling(window=w).mean()` for a float series with no NaN entries:
entry `i` is defined once `w` observations exist and averages
`xs[i-w+1 .. i]`. -/
def rollingMeanQ (w : ℕ) (xs : List ℚ) : List (Option ℚ) :=
  (List.range xs.length).map (fun i =>
    if w ≤ i + 1 then some ((((xs.take (i + 1)).drop (i + 1 - w)).sum) / w)
    else none)

/-- `xs.cumsum()`: entry `i` is the sum of `xs[0 .. i]`. -/
def cumsum (xs : List ℚ) : List ℚ :=
  (List.range xs.length).map (fun i => ((xs.take (i + 1)).sum))

/-- Per-bar deltas `close[i] - close[i-1]` (the defined entries of
`daily_data['Close'].diff()`, which drops the leading NaN). -/
def deltaList (close : List ℚ) : List ℚ :=
  List.zipWith (fun a b => a - b) close.tail close

/-- `delta.where(delta > 0, 0)`: the leading NaN of `diff()` compares false
against 0 and becomes `0`; every other entry is `max (delta i) 0`. -/
def gainSeries (close : List ℚ) : List ℚ :=
  match close with
  | [] => []
  | _ :: _ => 0 :: (deltaList close).map (fun d => max d 0)

/-- `-delta.where(delta < 0, 0)`: the leading NaN becomes `0`; every other
entry is `max (-(delta i)) 0`. -/
def lossSeries (close : List ℚ) : List ℚ :=
  match close with
  | [] => []
  | _ :: _ => 0 :: (deltaList close).map (fun d => max (-d) 0)

/-- `daily_data['RSI'] = 100 - (100 / (1 + rs))` with
`rs = gain.rolling(14).mean() / loss.rolling(14).mean()`: entrywise, NaN
(`none`) propagating. Boundary caveat of the `ℚ` model: when the average
loss is `0`, floats give `rs = inf` and `RSI = 100`, while `ℚ` division
by zero gives `rs = 0`; every statement below about RSI therefore assumes
a positive average loss, as the specification's non-degeneracy premise
does. -/
def rsiSeries (close : List ℚ) : List (Option ℚ) :=
  List.zipWith
    (fun og ol =>
      match og, ol with
      | some g, some l => some (100 - 100 / (1 + g / l))
      | _, _ => none)
    (rollingMeanQ 14 (gainSeries close)) (rollingMeanQ 14 (lossSeries close))

/-- `(Close * Volume).cumsum() / Volume.cumsum()`, entrywise. -/
def vwapSeries (close volume : List ℚ) : List ℚ :=
  List.zipWith (fun a b => a / b)
    (cumsum (List.zipWith (fun c v => c * v) close volume)) (cumsum volume)

/-! ## Indicator engine (`get_stock_data`, lines 100-116) -/

/-- The daily dataframe after `get_stock_data` has attached its indicator
columns: the fetched `Close`/`Volume` series plus the four derived columns. -/
structure DailyFrame where
  close : List ℚ
  volume : List ℚ
  rsi : List (Option ℚ)
  sma20 : List (Option ℚ)
  sma50 : List (Option ℚ)
  vwap : List ℚ
  deriving Repr, DecidableEq

/-- Lines 100-115 of `get_stock_data`: on a non-empty daily frame, attach the
`RSI`, `SMA_20`, `SMA_50` and `VWAP` columns computed from `Close` and
`Volume`; an empty frame is left untouched (no indicator columns). -/
def computeIndicators (close volume : List ℚ) : DailyFrame :=
  if close.length = 0 then ⟨close, volume, [], [], [], []⟩
  else ⟨close, volume, rsiSeries close, rollingMeanQ 20 close,
        rollingMeanQ 50 close, vwapSeries close volume⟩

/-! ## Positional indexing (`Series.iloc`) -/

/-- `series.iloc[i]`: a negative index counts from the end; an index outside
the series raises `IndexError`. -/
def iloc {α : Type} (xs : List α) (d : α) (i : ℤ) : Except String α :=
  let j : ℤ := if i < 0 then (xs.length : ℤ) + i else i
  if 0 ≤ j ∧ j < (xs.length : ℤ) then Except.ok (xs.getD j.toNat d)
  else Except.error "IndexError"

/-- `(series['Close'].iloc[-1] / series['Close'].iloc[-2] - 1) * 100`
(lines 131-133 of `generate_analysis_prompt`, one per granularity). -/
def pctChange (close : List ℚ) : Except String ℚ := do
  let a ← iloc close 0 (-1)
  let b ← iloc close 0 (-2)
  pure ((a / b - 1) * 100)

/-! ## Python number formatting

`f"{x:.2f}"`, `f"{x:,.2f}"`, `f"{x:,}"` and `str(x)` as used by the prompt
template. Rounding of the two-decimal formats is round-half-even, as Python
format applies to the value. -/

/-- Round to the nearest integer, ties to even. -/
def roundHalfEven (x : ℚ) : ℤ :=
  let f := ⌊x⌋
  let r := x - f
  if r < 1/2 then f
  else if 1/2 < r then f + 1
  else if f % 2 = 0 then f else f + 1

/-- Two-digit zero-padded rendering of `n < 100`. -/
def pad2 (n : ℕ) : String :=
  (if n < 10 then "0" else "") ++ toString n

/-- `f"{x:.2f}"`. -/
def fmtFixed2 (x : ℚ) : String :=
  let n := roundHalfEven (x * 100)
  (if n < 0 then "-" else "") ++ toString (n.natAbs / 100) ++ "." ++
    pad2 (n.natAbs % 100)

/-- Insert a thousands separator every three digits; the digit list is
given least-significant first. -/
def insertCommas : List Char → List Char
  | d1 :: d2 :: d3 :: d4 :: rest =>
      d1 :: d2 :: d3 :: ',' :: insertCommas (d4 :: rest)
  | ds => ds

/-- Decimal rendering of a natural number with thousands separators. -/
def fmtCommaNat (n : ℕ) : String :=
  String.mk ((insertCommas (toString n).data.reverse).reverse)

/-- `f"{x:,.2f}"`. -/
def fmtComma2 (x : ℚ) : String :=
  let n := roundHalfEven (x * 100)
  (if n < 0 then "-" else "") ++ fmtCommaNat (n.natAbs / 100) ++ "." ++
    pad2 (n.natAbs % 100)

/-- `f"{z:,}"` for an integer value. -/
def fmtCommaInt (z : ℤ) : String :=
  (if z < 0 then "-" else "") ++ fmtCommaNat z.natAbs

/-- Digits of the fractional part `r ∈ [0, 1)`, most significant first,
up to the given number of places, dropping the trailing zero tail. -/
def fracDigits : ℕ → ℚ → List Char
  | 0, _ => []
  | fuel + 1, r =>
      if r = 0 then []
      else Char.ofNat (48 + (⌊r * 10⌋).toNat) :: fracDigits fuel (r * 10 - ⌊r * 10⌋)

/-- `str(x)` on a numeric value (decimal rendering; a whole number renders
with a trailing `.0` as Python prints floats). -/
def pyStr (x : ℚ) : String :=
  let a := |x|
  let fr := a - ⌊a⌋
  (if x < 0 then "-" else "") ++ toString (⌊a⌋).toNat ++ "." ++
    (if fr = 0 then "0" else String.mk (fracDigits 17 fr))

/-- `f"{x:.2f}"` where `x` may be pandas NaN (a missing indicator value):
NaN renders as `nan`. -/
def fmtF2NaN : Option ℚ → String
  | none => "nan"
  | some x => fmtFixed2 x

/-! ## Company metadata (`stock.info`) and its prompt fragments -/

/-- The `info` record as consumed by the template: every accessed key is
optional (`info.get(key, default)`). -/
structure CompanyInfo where
  longName : Option String
  industry : Option String
  sector : Option String
  marketCap : Option ℚ
  fiftyTwoWeekLow : Option ℚ
  fiftyTwoWeekHigh : Option ℚ
  volume : Option ℤ
  averageVolume : Option ℤ
  trailingPE : Option ℚ
  trailingEps : Option ℚ
  forwardPE : Option ℚ
  pegRatio : Option ℚ
  deriving Repr, DecidableEq

/-- `{info.get('longName', 'N/A')}`. -/
def renderName (i : CompanyInfo) : String := i.longName.getD "N/A"

/-- `{info.get('industry', 'N/A')}`. -/
def renderIndustry (i : CompanyInfo) : String := i.industry.getD "N/A"

/-- `{info.get('sector', 'N/A')}`. -/
def renderSector (i : CompanyInfo) : String := i.sector.getD "N/A"

/-- `{info.get('marketCap', 0):,.2f}`. -/
def renderMarketCap (i : CompanyInfo) : String := fmtComma2 (i.marketCap.getD 0)

/-- `{info.get('fiftyTwoWeekLow', 0):.2f}`. -/
def renderFtwLow (i : CompanyInfo) : String := fmtFixed2 (i.fiftyTwoWeekLow.getD 0)

/-- `{info.get('fiftyTwoWeekHigh', 0):.2f}`. -/
def renderFtwHigh (i : CompanyInfo) : String := fmtFixed2 (i.fiftyTwoWeekHigh.getD 0)

/-- `{info.get('volume', 0):,}`. -/
def renderVolume (i : CompanyInfo) : String := fmtCommaInt (i.volume.getD 0)

/-- `{info.get('averageVolume', 0):,}`. -/
def renderAvgVolume (i : CompanyInfo) : String := fmtCommaInt (i.averageVolume.getD 0)

/-- `{info.get('trailingPE', 'N/A')}`: a missing key interpolates the
default string, a present float interpolates through `str`. -/
def renderTrailingPE (i : CompanyInfo) : String :=
  match i.trailingPE with
  | none => "N/A"
  | some x => pyStr x

/-- `{info.get('trailingEps', 0):.2f}`. -/
def renderEps (i : CompanyInfo) : String := fmtFixed2 (i.trailingEps.getD 0)

/-- `{info.get('forwardPE', 'N/A')}`. -/
def renderForwardPE (i : CompanyInfo) : String :=
  match i.forwardPE with
  | none => "N/A"
  | some x => pyStr x

/-- `{info.get('pegRatio', 'N/A')}`. -/
def renderPegRatio (i : CompanyInfo) : String :=
  match i.pegRatio with
  | none => "N/A"
  | some x => pyStr x

/-! ## Insider trades: record and prompt block (`format_insider_trades`) -/

/-- One parsed row of the OpenInsider table (all fields kept as strings). -/
structure Trade where
  date : String
  insider : String
  title : String
  trade_type : String
  price : String
  qty : String
  owned : String
  delta_own : String
  value : String
  deriving Repr, DecidableEq

/-- `"-" * 50`. -/
def dashes50 : String := String.mk (List.replicate 50 '-')

/-- The per-trade block appended by the loop of `format_insider_trades`. -/
def formatTrade (t : Trade) : String :=
  "Date: " ++ t.date ++ "\n" ++
  "Insider: " ++ t.insider ++ " (" ++ t.title ++ ")\n" ++
  "Type: " ++ t.trade_type ++ " | Price: " ++ t.price ++ " | Quantity: " ++
    t.qty ++ "\n" ++
  "Value: " ++ t.value ++ " | Shares Owned: " ++ t.owned ++ "\n" ++
  dashes50 ++ "\n"

/-- `format_insider_trades` (lines 61-82). -/
def formatInsiderTrades (trades : List Trade) : String :=
  if trades.isEmpty then "No recent insider trades found"
  else "Recent insider trades:\n" ++ String.join (trades.map formatTrade)

/-! ## Prompt composer (`generate_analysis_prompt`, lines 121-194) -/

/-- The `data` dict returned by `get_stock_data`: the daily frame carries
the indicator columns; only `Close` of the weekly and monthly frames is
consumed downstream. -/
structure MarketData where
  daily : DailyFrame
  weeklyClose : List ℚ
  monthlyClose : List ℚ
  deriving Repr, DecidableEq

/-- `generate_analysis_prompt`: the `iloc` reads and the percentage-change
computations may raise `IndexError` (`Except.error`); otherwise the
rendered template string is produced. -/
def genPrompt (ticker : String) (md : MarketData) (info : CompanyInfo)
    (insider_trades : List Trade) : Except String String := do
  let current_price ← iloc md.daily.close 0 (-1)
  let rsi ← iloc md.daily.rsi none (-1)
  let sma_20 ← iloc md.daily.sma20 none (-1)
  let sma_50 ← iloc md.daily.sma50 none (-1)
  let vwap ← iloc md.daily.vwap 0 (-1)
  let daily_change ← pctChange md.daily.close
  let weekly_change ← pctChange md.weeklyClose
  let monthly_change ← pctChange md.monthlyClose
  let insider_trades_str := formatInsiderTrades insider_trades
  pure ("You are an expert stock analyst. Provide a comprehensive analysis of "
    ++ ticker
    ++ " to determine if it\x27s a good short-term (day/swing trade) or long-term investment.\n\nINSIDER TRADES:\n"
    ++ insider_trades_str
    ++ "\n\nCOMPANY INFORMATION:\nName: " ++ renderName info
    ++ "\nIndustry: " ++ renderIndustry info
    ++ "\nSector: " ++ renderSector info
    ++ "\nMarket Cap: $" ++ renderMarketCap info
    ++ "\n\nCURRENT MARKET DATA:\nPrice: $" ++ fmtFixed2 current_price
    ++ "\n52-Week Range: $" ++ renderFtwLow info ++ " - $" ++ renderFtwHigh info
    ++ "\nVolume: " ++ renderVolume info
    ++ "\nAverage Volume: " ++ renderAvgVolume info
    ++ "\n\nTECHNICAL INDICATORS:\nRSI (14): " ++ fmtF2NaN rsi
    ++ "\nSMA 20: $" ++ fmtF2NaN sma_20
    ++ " \nSMA 50: $" ++ fmtF2NaN sma_50
    ++ "\nVWAP: $" ++ fmtFixed2 vwap
    ++ "\n\nPERFORMANCE:  \nDaily Change: " ++ fmtFixed2 daily_change
    ++ "%\nWeekly Change: " ++ fmtFixed2 weekly_change
    ++ "%\nMonthly Change: " ++ fmtFixed2 monthly_change
    ++ "%\n\nFUNDAMENTAL METRICS:\nP/E Ratio: " ++ renderTrailingPE info
    ++ "\nEPS (TTM): $" ++ renderEps info
    ++ "\nForward P/E: " ++ renderForwardPE info
    ++ "\nPEG Ratio: " ++ renderPegRatio info
    ++ "\n\nBased on this data, provide:\n1. SHORT-TERM OUTLOOK (1-5 days)  \n   - Clear buy/sell/hold recommendation\n   - Key support and resistance levels\n   - Potential entry/exit points\n   - Risk assessment\n\n2. LONG-TERM OUTLOOK (6-12 months)\n   - Investment recommendation  \n   - Growth potential\n   - Key risks and catalysts\n   - Target price range\n\n3. KEY CONSIDERATIONS\n   - Technical analysis insights\n   - Fundamental strengths/weaknesses\n   - Market sentiment\n   - Industry trends\n   - Impact of recent insider trading activity\n\nFormat your response clearly with sections and provide specific actionable insights.\n")

/-! ## `str.strip()` -/

/-- Python whitespace for default `strip`. -/
def isPySpace (c : Char) : Bool :=
  c = ' ' || c = '\t' || c = '\n' || c = '\r' || c = '\x0b' || c = '\x0c'

/-- Drop the longest prefix satisfying `f`. -/
def dropLeading (f : Char → Bool) : List Char → List Char
  | [] => []
  | c :: cs => if f c then dropLeading f cs else c :: cs

/-- `s.strip()`: remove leading and trailing whitespace. -/
def pyStrip (s : String) : String :=
  String.mk (((dropLeading isPySpace
    ((dropLeading isPySpace s.data).reverse))).reverse)

/-! ## Insider trade fetcher (`get_insider_trades`, lines 15-59) -/

/-- The outcome of `requests.get` once it has not itself raised: an HTTP
status plus the parse of the body — `soup.find("table", {"class":
"tinytable"})` either finds the table (its rows given as lists of
`td`-cell texts) or yields `None`. -/
structure HttpResponse where
  status : ℕ
  tinytable : Option (List (List String))
  deriving Repr, DecidableEq

/-- `cols[i].text` with Python list indexing: out of range raises. -/
def cellText (cols : List String) (i : ℕ) : Except String String :=
  match cols[i]? with
  | some s => Except.ok s
  | none => Except.error "IndexError"

/-- The loop body for one row: rows with fewer than 8 cells are skipped
(`none`), otherwise the nine fixed columns are read (which may raise). -/
def parseRow (cols : List String) : Except String (Option Trade) :=
  if 8 ≤ cols.length then do
    let date ← cellText cols 1
    let insider ← cellText cols 3
    let title ← cellText cols 4
    let trade_type ← cellText cols 5
    let price ← cellText cols 6
    let qty ← cellText cols 7
    let owned ← cellText cols 8
    let delta_own ← cellText cols 9
    let value ← cellText cols 10
    pure (some ⟨pyStrip date, pyStrip insider, pyStrip title, pyStrip trade_type,
                pyStrip price, pyStrip qty, pyStrip owned, pyStrip delta_own,
                pyStrip value⟩)
  else pure none

/-- The `for row in table.find_all("tr")[1:6]` loop over the already
sliced rows, accumulating trades in source order; a raise anywhere aborts
the whole loop. -/
def parseRows : List (List String) → Except String (List Trade)
  | [] => Except.ok []
  | r :: rs => do
    let t? ← parseRow r
    let rest ← parseRows rs
    match t? with
    | some t => pure (t :: rest)
    | none => pure rest

/-- `get_insider_trades`: the whole body sits in a `try` whose handler
returns `[]`; a transport failure (`fetch = error`), `raise_for_status`
on a 4xx/5xx status, and any parsing raise all land there. A missing
`tinytable` returns `[]` without raising. -/
def getInsiderTrades (fetch : Except String HttpResponse) : List Trade :=
  match (do
    let resp ← fetch
    if 400 ≤ resp.status then Except.error "HTTPError"
    else
      match resp.tinytable with
      | none => Except.ok []
      | some rows => parseRows ((rows.drop 1).take 5) : Except String (List Trade)) with
  | Except.ok ts => ts
  | Except.error _ => []

/-! ## Presentation layer (`format_analysis`, lines 202-224)

`str.replace` is modelled on `List Char` by a left-to-right scan that
rewrites every (non-overlapping) occurrence, with the remaining input
length as a structurally decreasing fuel. -/

/-- One scan step bounded by fuel (the fuel is kept at least the length of
the list being scanned). -/
def replaceAllFuel (p r : List Char) : ℕ → List Char → List Char
  | 0, s => s
  | _ + 1, [] => []
  | fuel + 1, c :: s =>
      if p.isPrefixOf (c :: s) then
        r ++ replaceAllFuel p r fuel ((c :: s).drop p.length)
      else c :: replaceAllFuel p r fuel s

/-- `s.replace(p, r)` for a non-empty pattern `p` (every pattern of
`format_analysis` is non-empty; an empty pattern is left as the identity
here). -/
def replaceAll (p r s : List Char) : List Char :=
  if p.isEmpty then s else replaceAllFuel p r s.length s

/-- colorama codes: `Fore.CYAN`. -/
def foreCyan : String := "\x1b[36m"
/-- `Fore.BLACK`. -/
def foreBlack : String := "\x1b[30m"
/-- `Fore.GREEN`. -/
def foreGreen : String := "\x1b[32m"
/-- `Fore.RED`. -/
def foreRed : String := "\x1b[31m"
/-- `Back.GREEN`. -/
def backGreen : String := "\x1b[42m"
/-- `Back.RED`. -/
def backRed : String := "\x1b[41m"
/-- `Back.YELLOW`. -/
def backYellow : String := "\x1b[43m"
/-- `Style.BRIGHT`. -/
def styleBright : String := "\x1b[1m"
/-- `Style.RESET_ALL`. -/
def styleReset : String := "\x1b[0m"

/-- The pattern of the Buy recommendation pass. -/
def buyPat : List Char := "Recommendation: Buy".data

/-- The replacement the Buy pass substitutes for `buyPat`. -/
def buyStyled : List Char :=
  ("Recommendation: " ++ backGreen ++ foreBlack ++ " Buy " ++ styleReset).data

/-- The fourteen `(pattern, replacement)` passes of `format_analysis`, in
source order. -/
def stages : List (List Char × List Char) :=
  [("Short-Term Outlook".data,
    (foreCyan ++ styleBright ++ "Short-Term Outlook" ++ styleReset).data),
   ("Long-Term Outlook".data,
    (foreCyan ++ styleBright ++ "\nLong-Term Outlook" ++ styleReset).data),
   ("Key Considerations".data,
    (foreCyan ++ styleBright ++ "\nKey Considerations" ++ styleReset).data),
   (buyPat, buyStyled),
   ("Recommendation: Sell".data,
    ("Recommendation: " ++ backRed ++ foreBlack ++ " Sell " ++ styleReset).data),
   ("Recommendation: Hold".data,
    ("Recommendation: " ++ backYellow ++ foreBlack ++ " Hold " ++ styleReset).data),
   ("Support Levels:".data, (foreGreen ++ "Support Levels:" ++ styleReset).data),
   ("Resistance Levels:".data, (foreRed ++ "Resistance Levels:" ++ styleReset).data),
   ("Entry Points:".data, (foreGreen ++ "Entry Points:" ++ styleReset).data),
   ("Exit Points:".data, (foreRed ++ "Exit Points:" ++ styleReset).data),
   ("Risk: High".data,
    ("Risk: " ++ backRed ++ foreBlack ++ " High " ++ styleReset).data),
   ("Risk: Medium".data,
    ("Risk: " ++ backYellow ++ foreBlack ++ " Medium " ++ styleReset).data),
   ("Risk: Low".data,
    ("Risk: " ++ backGreen ++ foreBlack ++ " Low " ++ styleReset).data),
   ("Target Price Range:".data,
    (foreGreen ++ styleBright ++ "Target Price Range:" ++ styleReset).data)]

/-- `format_analysis` on the character list of the response. -/
def formatAnalysisL (s : List Char) : List Char :=
  stages.foldl (fun t pr => replaceAll pr.1 pr.2 t) s

/-- `format_analysis`. -/
def formatAnalysis (analysis : String) : String :=
  String.mk (formatAnalysisL analysis.data)

/-! ## `main` (lines 226-265) -/

/-- What one invocation of `main` does, observably. -/
inductive RunOutcome where
  /-- `get_stock_data` caught an exception, printed the error, returned
  `(None, None)`; `main` returns early. -/
  | fetchFailReported
  /-- an exception escaped `main` (nothing catches it there): the process
  dies with a traceback. -/
  | crashed (err : String)
  /-- `ollama.generate` raised; the surrounding `try` printed the error. -/
  | inferFailReported (err : String)
  /-- the formatted analysis was printed. -/
  | completed (output : String)
  deriving Repr, DecidableEq

/-- `main`: fetch → insider trades → `generate_analysis_prompt` (called at
line 244, outside any `try`: a raise there escapes `main`) → inference
(inside `try`) → `format_analysis` → print. -/
def mainRun (ticker : String) (fetch : Option (MarketData × CompanyInfo))
    (insiderTrades : List Trade) (infer : String → Except String String) :
    RunOutcome :=
  match fetch with
  | none => RunOutcome.fetchFailReported
  | some (data, info) =>
    match genPrompt ticker data info insiderTrades with
    | Except.error e => RunOutcome.crashed e
    | Except.ok prompt =>
      match infer prompt with
      | Except.error e => RunOutcome.inferFailReported e
      | Except.ok response => RunOutcome.completed (formatAnalysis (pyStrip response))

/-! ## Spec-side definitions

Each is written from the specification's wording, to be compared with the
corresponding definition translated from the source. -/

/-- Spec: percentage change is `(latest close / previous close − 1) × 100`
from the series' own last two bars. -/
def pctChangeSpec (close : List ℚ) : ℚ :=
  (close.getD (close.length - 1) 0 / close.getD (close.length - 2) 0 - 1) * 100

/-- Spec: SMA(w) at the last index is the arithmetic mean of the trailing
`w` closes. -/
def smaSpec (w : ℕ) (close : List ℚ) : ℚ :=
  ((close.drop (close.length - w)).sum) / w

/-- Spec: VWAP at index `i` is `cumulative(close×volume)[0..i] /
cumulative(volume)[0..i]`. -/
def vwapSpec (close volume : List ℚ) (i : ℕ) : ℚ :=
  (∑ j ∈ Finset.range (i + 1), close.getD j 0 * volume.getD j 0) /
    (∑ j ∈ Finset.range (i + 1), volume.getD j 0)

/-- Spec: the trailing 14-bar simple moving average of
`gain = max(delta, 0)` at the last index. -/
def avgGainSpec (close : List ℚ) : ℚ :=
  (((deltaList close).map (fun d => max d 0)).drop (close.length - 1 - 14)).sum / 14

/-- Spec: the trailing 14-bar simple moving average of
`loss = max(−delta, 0)` at the last index. -/
def avgLossSpec (close : List ℚ) : ℚ :=
  (((deltaList close).map (fun d => max (-d) 0)).drop (close.length - 1 - 14)).sum / 14

/-- The engine's average gain feeding the last RSI entry (the rolling
window of `gainSeries` ending at the last index). -/
def avgGainLast (close : List ℚ) : ℚ :=
  (((gainSeries close).drop (close.length - 14)).sum) / 14

/-- The engine's average loss feeding the last RSI entry. -/
def avgLossLast (close : List ℚ) : ℚ :=
  (((lossSeries close).drop (close.length - 14)).sum) / 14

/-- The minimum close of a series (`min` folded with an element of the
series as seed). -/
def minClose (close : List ℚ) : ℚ := close.foldr min (close.getD 0 0)

/-- The maximum close of a series. -/
def maxClose (close : List ℚ) : ℚ := close.foldr max (close.getD 0 0)

/-! ## Concrete fixtures used by counterexamples and witnesses -/

/-- A metadata record with every optional key absent. -/
def emptyInfo : CompanyInfo :=
  ⟨none, none, none, none, none, none, none, none, none, none, none, none⟩

/-- A market-data value whose daily series has a single bar (one close,
one volume), weekly and monthly series well-formed. -/
def dailyOneBar : MarketData :=
  { daily := computeIndicators [100] [1000],
    weeklyClose := [100, 110], monthlyClose := [100, 120] }

/-- The header row of the scraped table (content irrelevant: sliced away). -/
def headerRow : List String := ["h"]

/-- A well-formed 11-cell data row. -/
def goodRow : List String :=
  ["x0", "d", "x2", "i", "t", "ty", "p", "q", "o", "do", "v"]

/-- The trade parsed from `goodRow`. -/
def goodTrade : Trade := ⟨"d", "i", "t", "ty", "p", "q", "o", "do", "v"⟩

/-- A malformed 3-cell data row. -/
def shortRow : List String := ["a", "b", "c"]

/-- A 10-cell data row: admitted by the `len(cols) >= 8` guard, but cell
10 does not exist. -/
def tenCellRow : List String :=
  ["c0", "c1", "c2", "c3", "c4", "c5", "c6", "c7", "c8", "c9"]

/-- A 200 response whose table holds a good row followed by a short row. -/
def respGoodShort : HttpResponse :=
  { status := 200, tinytable := some [headerRow, goodRow, shortRow] }

/-- A 200 response whose table holds a good row followed by a 10-cell row. -/
def respGoodTen : HttpResponse :=
  { status := 200, tinytable := some [headerRow, goodRow, tenCellRow] }

/-! ## Helper lemmas -/

theorem getD_range_map {α : Type} (f : ℕ → α) (n i : ℕ) (h : i < n) (d : α) :
    ((List.range n).map f).getD i d = f i := by
  rw [List.getD_eq_getElem?_getD, List.getElem?_map, List.getElem?_range h]
  rfl

theorem rollingMeanQ_getD_last {w : ℕ} {xs : List ℚ} (hw : w ≤ xs.length)
    (h0 : 1 ≤ xs.length) :
    (rollingMeanQ w xs).getD (xs.length - 1) none
      = some (((xs.drop (xs.length - w)).sum) / w) := by
  unfold rollingMeanQ
  rw [getD_range_map _ xs.length (xs.length - 1) (by omega) none]
  rw [if_pos (by omega : w ≤ xs.length - 1 + 1)]
  have h1 : xs.length - 1 + 1 = xs.length := by omega
  rw [h1, List.take_length]

theorem rollingMeanQ_getD_early {w i : ℕ} {xs : List ℚ} (hi : i < xs.length)
    (h : i + 1 < w) :
    (rollingMeanQ w xs).getD i none = none := by
  unfold rollingMeanQ
  rw [getD_range_map _ xs.length i hi none]
  rw [if_neg (by omega : ¬ w ≤ i + 1)]

/-! ## Claim C3 -/

/-- Claim C3: the indicator engine never mutates its input price series —
the `Close` and `Volume` columns (values and order) are the same before
and after indicator computation — and the computed columns are pure
functions of the input sequences. -/
theorem engine_never_mutates_input (close volume : List ℚ) :
    (computeIndicators close volume).close = close ∧
    (computeIndicators close volume).volume = volume ∧
    (∀ close2 volume2 : List ℚ, close = close2 → volume = volume2 →
      computeIndicators close volume = computeIndicators close2 volume2) := by
  refine ⟨?_, ?_, ?_⟩
  · unfold computeIndicators; split <;> rfl
  · unfold computeIndicators; split <;> rfl
  · intro c2 v2 hc hv; rw [hc, hv]

theorem engine_never_mutates_input_witness :
    (computeIndicators [100, 101] [5, 6]).close = [100, 101] ∧
    computeIndicators [100, 101] [5, 6] = computeIndicators [100, 101] [5, 6] :=
  ⟨(engine_never_mutates_input [100, 101] [5, 6]).1,
   (engine_never_mutates_input [100, 101] [5, 6]).2.2 [100, 101] [5, 6] rfl rfl⟩

/-! ## Claim C7 -/

theorem iloc_last {α : Type} (xs : List α) (d : α) (h : 1 ≤ xs.length) :
    iloc xs d (-1) = Except.ok (xs.getD (xs.length - 1) d) := by
  simp only [iloc]
  rw [if_pos (show (-1 : ℤ) < 0 by norm_num)]
  rw [if_pos (show (0 : ℤ) ≤ (xs.length : ℤ) + (-1) ∧
        (xs.length : ℤ) + (-1) < (xs.length : ℤ) by omega)]
  have ht : ((xs.length : ℤ) + (-1)).toNat = xs.length - 1 := by omega
  rw [ht]

theorem iloc_prev {α : Type} (xs : List α) (d : α) (h : 2 ≤ xs.length) :
    iloc xs d (-2) = Except.ok (xs.getD (xs.length - 2) d) := by
  simp only [iloc]
  rw [if_pos (show (-2 : ℤ) < 0 by norm_num)]
  rw [if_pos (show (0 : ℤ) ≤ (xs.length : ℤ) + (-2) ∧
        (xs.length : ℤ) + (-2) < (xs.length : ℤ) by omega)]
  have ht : ((xs.length : ℤ) + (-2)).toNat = xs.length - 2 := by omega
  rw [ht]

theorem pctChange_eq_spec {c : List ℚ} (h : 2 ≤ c.length) :
    pctChange c = Except.ok (pctChangeSpec c) := by
  unfold pctChange pctChangeSpec
  rw [iloc_last c 0 (by omega), iloc_prev c 0 h]
  rfl

/-- Claim C7: each of the daily, weekly and monthly percentage changes,
as `generate_analysis_prompt` computes them, equals
`(latest close / previous close − 1) × 100` on that series' own last two
bars, provided the series has at least two bars. -/
theorem pct_change_per_granularity (md : MarketData)
    (hd : 2 ≤ md.daily.close.length) (hw : 2 ≤ md.weeklyClose.length)
    (hm : 2 ≤ md.monthlyClose.length) :
    pctChange md.daily.close = Except.ok (pctChangeSpec md.daily.close) ∧
    pctChange md.weeklyClose = Except.ok (pctChangeSpec md.weeklyClose) ∧
    pctChange md.monthlyClose = Except.ok (pctChangeSpec md.monthlyClose) :=
  ⟨pctChange_eq_spec hd, pctChange_eq_spec hw, pctChange_eq_spec hm⟩

theorem pct_change_per_granularity_witness :
    pctChange ({ daily := computeIndicators [100, 110] [1, 1],
                 weeklyClose := [50, 55],
                 monthlyClose := [40, 50] } : MarketData).weeklyClose
      = Except.ok (pctChangeSpec [50, 55]) :=
  (pct_change_per_granularity _ (by norm_num [computeIndicators])
    (by norm_num) (by norm_num)).2.1

/-! ## Claim C8 -/

/-- Claim C8: on a series of at least 50 bars, the engine's `SMA_20` and
`SMA_50` at the last index equal the arithmetic mean of the trailing
20 and 50 closes respectively, and each SMA column is undefined (NaN)
before its window's number of bars exist. -/
theorem sma_last_trailing_mean (c v : List ℚ) (h : 50 ≤ c.length) :
    (computeIndicators c v).sma20.getD (c.length - 1) none
        = some (smaSpec 20 c) ∧
    (computeIndicators c v).sma50.getD (c.length - 1) none
        = some (smaSpec 50 c) ∧
    (∀ i, i < c.length → i + 1 < 20 →
      (computeIndicators c v).sma20.getD i none = none) ∧
    (∀ i, i < c.length → i + 1 < 50 →
      (computeIndicators c v).sma50.getD i none = none) := by
  have hne : ¬ (c.length = 0) := by omega
  unfold computeIndicators
  rw [if_neg hne]
  refine ⟨?_, ?_, ?_, ?_⟩
  · exact rollingMeanQ_getD_last (by omega) (by omega)
  · exact rollingMeanQ_getD_last (by omega) (by omega)
  · exact fun i hi hw => rollingMeanQ_getD_early hi hw
  · exact fun i hi hw => rollingMeanQ_getD_early hi hw

theorem sma_last_trailing_mean_witness :
    (computeIndicators (List.replicate 50 1) []).sma20.getD
        ((List.replicate 50 (1 : ℚ)).length - 1) none
      = some (smaSpec 20 (List.replicate 50 1)) ∧
    (computeIndicators (List.replicate 50 1) []).sma20.getD 0 none = none :=
  ⟨(sma_last_trailing_mean (List.replicate 50 1) [] (by simp)).1,
   (sma_last_trailing_mean (List.replicate 50 1) [] (by simp)).2.2.1 0
     (by simp) (by norm_num)⟩

/-! ## Claim C5 -/

theorem getD_zipWith' {α β γ : Type} (f : α → β → γ) (xs : List α)
    (ys : List β) (i : ℕ) (hx : i < xs.length) (hy : i < ys.length)
    (dx : α) (dy : β) (d : γ) :
    (List.zipWith f xs ys).getD i d = f (xs.getD i dx) (ys.getD i dy) := by
  have hl : i < (List.zipWith f xs ys).length := by
    rw [List.length_zipWith]; omega
  rw [List.getD_eq_getElem _ _ hl, List.getD_eq_getElem _ _ hx,
    List.getD_eq_getElem _ _ hy, List.getElem_zipWith]

theorem sum_take_eq (xs : List ℚ) (n : ℕ) (h : n ≤ xs.length) :
    (xs.take n).sum = ∑ j ∈ Finset.range n, xs.getD j 0 := by
  induction n with
  | zero => simp
  | succ m ih =>
    rw [List.take_succ, List.sum_append, ih (by omega), Finset.sum_range_succ]
    rw [List.getElem?_eq_getElem (by omega : m < xs.length)]
    rw [List.getD_eq_getElem _ _ (by omega : m < xs.length)]
    simp

theorem cumsum_getD (xs : List ℚ) (i : ℕ) (hi : i < xs.length) :
    (cumsum xs).getD i 0 = (xs.take (i + 1)).sum := by
  unfold cumsum
  rw [getD_range_map _ xs.length i hi 0]

theorem foldr_max_ge_mem (xs : List ℚ) (d x : ℚ) (hx : x ∈ xs) :
    x ≤ xs.foldr max d := by
  induction xs with
  | nil => cases hx
  | cons a t ih =>
    rw [List.foldr_cons]
    rcases List.mem_cons.mp hx with h | h
    · exact h ▸ le_max_left _ _
    · exact le_trans (ih h) (le_max_right _ _)

theorem foldr_min_le_mem (xs : List ℚ) (d x : ℚ) (hx : x ∈ xs) :
    xs.foldr min d ≤ x := by
  induction xs with
  | nil => cases hx
  | cons a t ih =>
    rw [List.foldr_cons]
    rcases List.mem_cons.mp hx with h | h
    · exact h ▸ min_le_left _ _
    · exact le_trans (min_le_right _ _) (ih h)

theorem sum_zipWith_le_max :
    ∀ (c v : List ℚ) (M : ℚ), c.length = v.length → (∀ x ∈ c, x ≤ M) →
      (∀ y ∈ v, 0 ≤ y) →
      (List.zipWith (fun a b => a * b) c v).sum ≤ M * v.sum := by
  intro c
  induction c with
  | nil =>
    intro v M hlen _ _
    have : v = [] := List.eq_nil_of_length_eq_zero (by simpa using hlen.symm)
    simp [this]
  | cons a t ih =>
    intro v M hlen hc hv
    cases v with
    | nil => simp at hlen
    | cons b u =>
      have h1 : a * b ≤ M * b :=
        mul_le_mul_of_nonneg_right (hc a (List.mem_cons_self a t))
          (hv b (List.mem_cons_self b u))
      have h2 : (List.zipWith (fun a b => a * b) t u).sum ≤ M * u.sum :=
        ih u M (by simpa using hlen) (fun x hx => hc x (List.mem_cons_of_mem _ hx))
          (fun y hy => hv y (List.mem_cons_of_mem _ hy))
      simp only [List.zipWith_cons_cons, List.sum_cons]
      calc a * b + (List.zipWith (fun a b => a * b) t u).sum
          ≤ M * b + M * u.sum := add_le_add h1 h2
        _ = M * (b + u.sum) := by ring

theorem min_mul_sum_le_zipWith :
    ∀ (c v : List ℚ) (m : ℚ), c.length = v.length → (∀ x ∈ c, m ≤ x) →
      (∀ y ∈ v, 0 ≤ y) →
      m * v.sum ≤ (List.zipWith (fun a b => a * b) c v).sum := by
  intro c
  induction c with
  | nil =>
    intro v m hlen _ _
    have : v = [] := List.eq_nil_of_length_eq_zero (by simpa using hlen.symm)
    simp [this]
  | cons a t ih =>
    intro v m hlen hc hv
    cases v with
    | nil => simp at hlen
    | cons b u =>
      have h1 : m * b ≤ a * b :=
        mul_le_mul_of_nonneg_right (hc a (List.mem_cons_self a t))
          (hv b (List.mem_cons_self b u))
      have h2 : m * u.sum ≤ (List.zipWith (fun a b => a * b) t u).sum :=
        ih u m (by simpa using hlen) (fun x hx => hc x (List.mem_cons_of_mem _ hx))
          (fun y hy => hv y (List.mem_cons_of_mem _ hy))
      simp only [List.zipWith_cons_cons, List.sum_cons]
      calc m * (b + u.sum) = m * b + m * u.sum := by ring
        _ ≤ a * b + (List.zipWith (fun a b => a * b) t u).sum := add_le_add h1 h2

/-- Claim C5: on a price series with nonnegative volumes and positive
cumulative volume up to index `i`, the engine's VWAP at `i` equals the
cumulative `close×volume` sum over bars `0..i` divided by the cumulative
volume over bars `0..i` (a running cumulative value), and it lies between
the series' minimum and maximum close. -/
theorem vwap_cumulative_and_bounded (c v : List ℚ) (i : ℕ)
    (hlen : c.length = v.length) (hi : i < c.length)
    (hv : ∀ y ∈ v, 0 ≤ y) (hpos : 0 < (cumsum v).getD i 0) :
    (vwapSeries c v).getD i 0 = vwapSpec c v i ∧
    minClose c ≤ (vwapSeries c v).getD i 0 ∧
    (vwapSeries c v).getD i 0 ≤ maxClose c := by
  have hiv : i < v.length := by omega
  have hVpos : 0 < (v.take (i + 1)).sum := by
    rw [cumsum_getD v i hiv] at hpos; exact hpos
  have hplen : (List.zipWith (fun a b => a * b) c v).length = c.length := by
    rw [List.length_zipWith]; omega
  have hmain : (vwapSeries c v).getD i 0
      = (List.take (i + 1) (List.zipWith (fun a b => a * b) c v)).sum
        / (v.take (i + 1)).sum := by
    unfold vwapSeries
    rw [getD_zipWith' (fun a b => a / b) _ _ i
      (by rw [(by unfold cumsum; simp :
          (cumsum (List.zipWith (fun a b => a * b) c v)).length
            = (List.zipWith (fun a b => a * b) c v).length)]; omega)
      (by unfold cumsum; simp; omega) 0 0 0]
    rw [cumsum_getD _ i (by omega), cumsum_getD v i hiv]
  have htakes : List.take (i + 1) (List.zipWith (fun a b => a * b) c v)
      = List.zipWith (fun a b => a * b) (c.take (i + 1)) (v.take (i + 1)) :=
    List.take_zipWith
  have hlentakes : (c.take (i + 1)).length = (v.take (i + 1)).length := by
    rw [List.length_take, List.length_take]; omega
  refine ⟨?_, ?_, ?_⟩
  · rw [hmain]
    unfold vwapSpec
    rw [sum_take_eq _ (i + 1) (by omega), sum_take_eq v (i + 1) (by omega)]
    congr 1
    refine Finset.sum_congr rfl ?_
    intro j hj
    have hjlt : j < c.length := by
      have := Finset.mem_range.mp hj; omega
    exact getD_zipWith' (fun a b => a * b) c v j hjlt (by omega) 0 0 0
  · rw [hmain, htakes]
    rw [le_div_iff₀ hVpos]
    exact min_mul_sum_le_zipWith (c.take (i + 1)) (v.take (i + 1)) (minClose c)
      hlentakes
      (fun x hx => foldr_min_le_mem c _ x (List.mem_of_mem_take hx))
      (fun y hy => hv y (List.mem_of_mem_take hy))
  · rw [hmain, htakes]
    rw [div_le_iff₀ hVpos]
    exact sum_zipWith_le_max (c.take (i + 1)) (v.take (i + 1)) (maxClose c)
      hlentakes
      (fun x hx => foldr_max_ge_mem c _ x (List.mem_of_mem_take hx))
      (fun y hy => hv y (List.mem_of_mem_take hy))

theorem vwap_cumulative_and_bounded_witness :
    (vwapSeries [1, 3] [2, 2]).getD 1 0 = vwapSpec [1, 3] [2, 2] 1 ∧
    minClose [1, 3] ≤ (vwapSeries [1, 3] [2, 2]).getD 1 0 ∧
    (vwapSeries [1, 3] [2, 2]).getD 1 0 ≤ maxClose [1, 3] :=
  vwap_cumulative_and_bounded [1, 3] [2, 2] 1 rfl (by norm_num)
    (by intro y hy; rcases List.mem_pair.mp hy with h | h <;> rw [h] <;> norm_num)
    (by norm_num [cumsum, List.range_succ])

/-! ## Claim C6 -/

theorem length_deltaList (c : List ℚ) : (deltaList c).length = c.length - 1 := by
  unfold deltaList
  rw [List.length_zipWith, List.length_tail]
  omega

theorem length_gainSeries (c : List ℚ) : (gainSeries c).length = c.length := by
  unfold gainSeries
  cases c with
  | nil => rfl
  | cons a t =>
    simp only [List.length_cons, List.length_map]
    rw [length_deltaList]
    simp

theorem length_lossSeries (c : List ℚ) : (lossSeries c).length = c.length := by
  unfold lossSeries
  cases c with
  | nil => rfl
  | cons a t =>
    simp only [List.length_cons, List.length_map]
    rw [length_deltaList]
    simp

theorem gainSeries_nonneg (c : List ℚ) : ∀ x ∈ gainSeries c, 0 ≤ x := by
  unfold gainSeries
  cases c with
  | nil => simp
  | cons a t =>
    intro x hx
    rcases List.mem_cons.mp hx with h | h
    · rw [h]
    · rcases List.mem_map.mp h with ⟨d, _, hd⟩
      rw [← hd]
      exact le_max_right d 0

theorem avgGainLast_eq_spec (c : List ℚ) (h : 15 ≤ c.length) :
    avgGainLast c = avgGainSpec c := by
  unfold avgGainLast avgGainSpec
  cases c with
  | nil => simp at h
  | cons a t =>
    show ((gainSeries (a :: t)).drop ((a :: t).length - 14)).sum / 14 = _
    unfold gainSeries
    simp only [List.length_cons] at h
    have hlen : (a :: t).length - 14 = ((a :: t).length - 1 - 14) + 1 := by
      simp only [List.length_cons]
      omega
    rw [hlen, List.drop_succ_cons]

theorem avgLossLast_eq_spec (c : List ℚ) (h : 15 ≤ c.length) :
    avgLossLast c = avgLossSpec c := by
  unfold avgLossLast avgLossSpec
  cases c with
  | nil => simp at h
  | cons a t =>
    show ((lossSeries (a :: t)).drop ((a :: t).length - 14)).sum / 14 = _
    unfold lossSeries
    simp only [List.length_cons] at h
    have hlen : (a :: t).length - 14 = ((a :: t).length - 1 - 14) + 1 := by
      simp only [List.length_cons]
      omega
    rw [hlen, List.drop_succ_cons]

theorem avgGainLast_nonneg (c : List ℚ) : 0 ≤ avgGainLast c := by
  unfold avgGainLast
  apply div_nonneg _ (by norm_num)
  exact List.sum_nonneg fun x hx =>
    gainSeries_nonneg c x (List.mem_of_mem_drop hx)

theorem length_rollingMeanQ (w : ℕ) (xs : List ℚ) :
    (rollingMeanQ w xs).length = xs.length := by
  unfold rollingMeanQ
  simp

theorem rsiSeries_getD_last (c : List ℚ) (h : 15 ≤ c.length) :
    (rsiSeries c).getD (c.length - 1) none
      = some (100 - 100 / (1 + avgGainLast c / avgLossLast c)) := by
  unfold rsiSeries
  rw [getD_zipWith' _ (rollingMeanQ 14 (gainSeries c))
    (rollingMeanQ 14 (lossSeries c)) (c.length - 1)
    (by rw [length_rollingMeanQ, length_gainSeries]; omega)
    (by rw [length_rollingMeanQ, length_lossSeries]; omega) none none none]
  have hg : (rollingMeanQ 14 (gainSeries c)).getD ((gainSeries c).length - 1) none
      = some (((gainSeries c).drop ((gainSeries c).length - 14)).sum / 14) :=
    rollingMeanQ_getD_last (by rw [length_gainSeries]; omega)
      (by rw [length_gainSeries]; omega)
  have hl : (rollingMeanQ 14 (lossSeries c)).getD ((lossSeries c).length - 1) none
      = some (((lossSeries c).drop ((lossSeries c).length - 14)).sum / 14) :=
    rollingMeanQ_getD_last (by rw [length_lossSeries]; omega)
      (by rw [length_lossSeries]; omega)
  rw [length_gainSeries] at hg
  rw [length_lossSeries] at hl
  rw [hg, hl]
  rfl

/-- Claim C6: on a series of at least 15 bars whose trailing 14-bar average
loss at the last index is positive, the engine's RSI at the last index is
defined, equals `100 − 100/(1 + avgGain/avgLoss)` with `avgGain`/`avgLoss`
the trailing 14-bar simple moving averages of `max(delta, 0)` and
`max(−delta, 0)`, and lies in `[0, 100]`. -/
theorem rsi_last_in_unit_range (c : List ℚ) (h15 : 15 ≤ c.length)
    (hloss : 0 < avgLossLast c) :
    (rsiSeries c).getD (c.length - 1) none
      = some (100 - 100 / (1 + avgGainSpec c / avgLossSpec c)) ∧
    avgGainLast c = avgGainSpec c ∧
    avgLossLast c = avgLossSpec c ∧
    0 ≤ 100 - 100 / (1 + avgGainSpec c / avgLossSpec c) ∧
    100 - 100 / (1 + avgGainSpec c / avgLossSpec c) ≤ 100 := by
  have hg := avgGainLast_eq_spec c h15
  have hl := avgLossLast_eq_spec c h15
  have hG : 0 ≤ avgGainSpec c := hg ▸ avgGainLast_nonneg c
  have hL : 0 < avgLossSpec c := hl ▸ hloss
  have hrs : 0 ≤ avgGainSpec c / avgLossSpec c := div_nonneg hG hL.le
  have h1 : (0 : ℚ) < 1 + avgGainSpec c / avgLossSpec c := by linarith
  have hd1 : 100 / (1 + avgGainSpec c / avgLossSpec c) ≤ 100 :=
    div_le_self (by norm_num) (by linarith)
  have hd0 : 0 ≤ 100 / (1 + avgGainSpec c / avgLossSpec c) :=
    div_nonneg (by norm_num) h1.le
  refine ⟨?_, hg, hl, by linarith, by linarith⟩
  rw [rsiSeries_getD_last c h15, hg, hl]

theorem rsi_last_in_unit_range_witness :
    0 ≤ 100 - 100 /
        (1 + avgGainSpec [10, 11, 10, 11, 10, 11, 10, 11, 10, 11, 10, 11, 10, 11, 10]
          / avgLossSpec [10, 11, 10, 11, 10, 11, 10, 11, 10, 11, 10, 11, 10, 11, 10]) ∧
    100 - 100 /
        (1 + avgGainSpec [10, 11, 10, 11, 10, 11, 10, 11, 10, 11, 10, 11, 10, 11, 10]
          / avgLossSpec [10, 11, 10, 11, 10, 11, 10, 11, 10, 11, 10, 11, 10, 11, 10]) ≤ 100 :=
  ⟨(rsi_last_in_unit_range [10, 11, 10, 11, 10, 11, 10, 11, 10, 11, 10, 11, 10, 11, 10]
      (by norm_num)
      (by norm_num [avgLossLast, lossSeries, deltaList])).2.2.2.1,
   (rsi_last_in_unit_range [10, 11, 10, 11, 10, 11, 10, 11, 10, 11, 10, 11, 10, 11, 10]
      (by norm_num)
      (by norm_num [avgLossLast, lossSeries, deltaList])).2.2.2.2⟩

/-! ## Claim C4 -/

theorem fmtFixed2_zero : fmtFixed2 0 = "0.00" := by
  norm_num [fmtFixed2, roundHalfEven, pad2]
  decide

theorem fmtComma2_zero : fmtComma2 0 = "0.00" := by
  norm_num [fmtComma2, roundHalfEven, pad2, fmtCommaNat, insertCommas]
  decide

theorem fmtCommaInt_zero : fmtCommaInt 0 = "0" := by
  norm_num [fmtCommaInt, fmtCommaNat, insertCommas]
  decide

/-- Claim C4 counterexample: on a record with a missing 52-week low, the
prompt fragment for that field is the numeric default rendering `0.00`,
not the `N/A` sentinel — although 52-week low is not among the fields the
claim allows to default to zero (market cap, volume, EPS). -/
theorem missing_52wk_low_renders_zero :
    emptyInfo.fiftyTwoWeekLow = none ∧
    renderFtwLow emptyInfo = "0.00" ∧
    renderFtwLow emptyInfo ≠ "N/A" := by
  have h2 : renderFtwLow emptyInfo = "0.00" := by
    rw [renderFtwLow]
    show fmtFixed2 (Option.getD none 0) = "0.00"
    rw [Option.getD_none, fmtFixed2_zero]
  exact ⟨rfl, h2, by rw [h2]; decide⟩

/-- Claim C4 (amended): a missing optional field renders as the literal
`N/A` for name, industry, sector, trailing P/E, forward P/E and PEG ratio;
the fields that default to zero are exactly market cap, 52-week low,
52-week high, volume, average volume and EPS. -/
theorem missing_fields_rendering (i : CompanyInfo) :
    (i.longName = none → renderName i = "N/A") ∧
    (i.industry = none → renderIndustry i = "N/A") ∧
    (i.sector = none → renderSector i = "N/A") ∧
    (i.trailingPE = none → renderTrailingPE i = "N/A") ∧
    (i.forwardPE = none → renderForwardPE i = "N/A") ∧
    (i.pegRatio = none → renderPegRatio i = "N/A") ∧
    (i.marketCap = none → renderMarketCap i = "0.00") ∧
    (i.fiftyTwoWeekLow = none → renderFtwLow i = "0.00") ∧
    (i.fiftyTwoWeekHigh = none → renderFtwHigh i = "0.00") ∧
    (i.volume = none → renderVolume i = "0") ∧
    (i.averageVolume = none → renderAvgVolume i = "0") ∧
    (i.trailingEps = none → renderEps i = "0.00") := by
  refine ⟨?_, ?_, ?_, ?_, ?_, ?_, ?_, ?_, ?_, ?_, ?_, ?_⟩ <;> intro h
  · rw [renderName, h, Option.getD_none]
  · rw [renderIndustry, h, Option.getD_none]
  · rw [renderSector, h, Option.getD_none]
  · rw [renderTrailingPE, h]
  · rw [renderForwardPE, h]
  · rw [renderPegRatio, h]
  · rw [renderMarketCap, h, Option.getD_none, fmtComma2_zero]
  · rw [renderFtwLow, h, Option.getD_none, fmtFixed2_zero]
  · rw [renderFtwHigh, h, Option.getD_none, fmtFixed2_zero]
  · rw [renderVolume, h, Option.getD_none, fmtCommaInt_zero]
  · rw [renderAvgVolume, h, Option.getD_none, fmtCommaInt_zero]
  · rw [renderEps, h, Option.getD_none, fmtFixed2_zero]

theorem missing_fields_rendering_witness :
    renderName emptyInfo = "N/A" ∧ renderPegRatio emptyInfo = "N/A" ∧
    renderMarketCap emptyInfo = "0.00" ∧ renderVolume emptyInfo = "0" :=
  ⟨(missing_fields_rendering emptyInfo).1 rfl,
   (missing_fields_rendering emptyInfo).2.2.2.2.2.1 rfl,
   (missing_fields_rendering emptyInfo).2.2.2.2.2.2.1 rfl,
   (missing_fields_rendering emptyInfo).2.2.2.2.2.2.2.2.2.1 rfl⟩

/-! ## Claim C1 -/

/-- Claim C1 exhibit: on a daily series with a single bar, the
percentage-change computation raises `IndexError` rather than signalling a
classified insufficient-data condition, and since `main` calls
`generate_analysis_prompt` outside any `try` (line 244), the exception
escapes `main`: the run crashes instead of being caught, reported and
ending cleanly. -/
theorem short_daily_series_crashes_main :
    pctChange dailyOneBar.daily.close = Except.error "IndexError" ∧
    mainRun "ABC" (some (dailyOneBar, emptyInfo)) []
      (fun _ => Except.ok "analysis") = RunOutcome.crashed "IndexError" :=
  ⟨rfl, rfl⟩

/-! ## Claims C2 and C10: parsing lemmas -/

theorem cellText_ok_of_lt {r : List String} {i : ℕ} (h : i < r.length) :
    ∃ s, cellText r i = Except.ok s := by
  unfold cellText
  cases hx : r[i]? with
  | none =>
    rw [List.getElem?_eq_none_iff] at hx
    omega
  | some s => exact ⟨s, rfl⟩

theorem cellText_err_of_ge {r : List String} {i : ℕ} (h : r.length ≤ i) :
    cellText r i = Except.error "IndexError" := by
  unfold cellText
  rw [List.getElem?_eq_none h]

theorem parseRow_skip {r : List String} (h : r.length < 8) :
    parseRow r = Except.ok none := by
  unfold parseRow
  rw [if_neg (by omega)]
  rfl

theorem parseRows_skip (r : List String) (rs : List (List String))
    (h : r.length < 8) : parseRows (r :: rs) = parseRows rs := by
  show (do
    let t? ← parseRow r
    let rest ← parseRows rs
    match t? with
    | some t => pure (t :: rest)
    | none => pure rest) = parseRows rs
  rw [parseRow_skip h]
  cases hrs : parseRows rs with
  | error e => simp [bind, Except.bind, hrs]
  | ok l => simp [bind, Except.bind, hrs, pure, Except.pure]

theorem parseRow_oob {r : List String} (h8 : 8 ≤ r.length)
    (h10 : r.length ≤ 10) : parseRow r = Except.error "IndexError" := by
  unfold parseRow
  rw [if_pos h8]
  obtain ⟨s1, e1⟩ := cellText_ok_of_lt (show 1 < r.length by omega)
  obtain ⟨s3, e3⟩ := cellText_ok_of_lt (show 3 < r.length by omega)
  obtain ⟨s4, e4⟩ := cellText_ok_of_lt (show 4 < r.length by omega)
  obtain ⟨s5, e5⟩ := cellText_ok_of_lt (show 5 < r.length by omega)
  obtain ⟨s6, e6⟩ := cellText_ok_of_lt (show 6 < r.length by omega)
  obtain ⟨s7, e7⟩ := cellText_ok_of_lt (show 7 < r.length by omega)
  rcases (show r.length = 8 ∨ r.length = 9 ∨ r.length = 10 by omega) with
    hl | hl | hl
  · simp [e1, e3, e4, e5, e6, e7, bind, Except.bind,
      cellText_err_of_ge (show r.length ≤ 8 by omega)]
  · obtain ⟨s8, e8⟩ := cellText_ok_of_lt (show 8 < r.length by omega)
    simp [e1, e3, e4, e5, e6, e7, e8, bind, Except.bind,
      cellText_err_of_ge (show r.length ≤ 9 by omega)]
  · obtain ⟨s8, e8⟩ := cellText_ok_of_lt (show 8 < r.length by omega)
    obtain ⟨s9, e9⟩ := cellText_ok_of_lt (show 9 < r.length by omega)
    simp [e1, e3, e4, e5, e6, e7, e8, e9, bind, Except.bind,
      cellText_err_of_ge (show r.length ≤ 10 by omega)]

theorem parseRows_err_of_mem {rows : List (List String)} {r : List String}
    (hmem : r ∈ rows) (herr : parseRow r = Except.error "IndexError") :
    ∃ e, parseRows rows = Except.error e := by
  induction rows with
  | nil => cases hmem
  | cons h0 t ih =>
    cases hp : parseRow h0 with
    | error e =>
      refine ⟨e, ?_⟩
      show (do
        let t? ← parseRow h0
        let rest ← parseRows t
        match t? with
        | some tr => pure (tr :: rest)
        | none => pure rest) = Except.error e
      rw [hp]
      rfl
    | ok t? =>
      rcases List.mem_cons.mp hmem with rfl | hmem2
      · rw [hp] at herr; cases herr
      · obtain ⟨e, he⟩ := ih hmem2
        refine ⟨e, ?_⟩
        show (do
          let t? ← parseRow h0
          let rest ← parseRows t
          match t? with
          | some tr => pure (tr :: rest)
          | none => pure rest) = Except.error e
        rw [hp, he]
        rfl

/-! ## Claim C2 -/

/-- Claim C2 counterexample: with a table holding one well-formed 11-cell
row and one malformed 3-cell row, the fetcher returns the parsed trade of
the good row — a non-empty sequence — so a malformed row does not, in
general, make the call return an empty sequence. -/
theorem malformed_row_still_yields_trades :
    shortRow.length < 8 ∧
    shortRow ∈ (([headerRow, goodRow, shortRow].drop 1).take 5) ∧
    getInsiderTrades (Except.ok respGoodShort) = [goodTrade] ∧
    getInsiderTrades (Except.ok respGoodShort) ≠ ([] : List Trade) := by
  decide

/-- Claim C2 (amended): a transport error, a 4xx/5xx status, or a missing
table yields `[]`, and the fetcher never raises (every raise inside is
caught and becomes `[]`); but a malformed row is handled unevenly — a row
with 8 to 10 cells makes the whole call return `[]`, while a row with
fewer than 8 cells is skipped individually, other rows still being
returned. -/
theorem insider_fetch_failure_policy :
    (∀ msg, getInsiderTrades (Except.error msg) = []) ∧
    (∀ resp : HttpResponse, 400 ≤ resp.status →
      getInsiderTrades (Except.ok resp) = []) ∧
    (∀ resp : HttpResponse, resp.status < 400 → resp.tinytable = none →
      getInsiderTrades (Except.ok resp) = []) ∧
    (∀ (resp : HttpResponse) (rows : List (List String)) (r : List String),
      resp.status < 400 → resp.tinytable = some rows →
      r ∈ (rows.drop 1).take 5 → 8 ≤ r.length → r.length ≤ 10 →
      getInsiderTrades (Except.ok resp) = []) ∧
    (∀ (r : List String) (rs : List (List String)), r.length < 8 →
      parseRows (r :: rs) = parseRows rs) := by
  refine ⟨?_, ?_, ?_, ?_, fun r rs h => parseRows_skip r rs h⟩
  · intro msg
    rfl
  · intro resp h
    unfold getInsiderTrades
    simp only [bind, Except.bind]
    rw [if_pos h]
  · intro resp h1 h2
    unfold getInsiderTrades
    simp only [bind, Except.bind]
    rw [if_neg (by omega), h2]
  · intro resp rows r h1 h2 hmem h8 h10
    obtain ⟨e, he⟩ := parseRows_err_of_mem hmem (parseRow_oob h8 h10)
    unfold getInsiderTrades
    simp only [bind, Except.bind]
    rw [if_neg (by omega), h2]
    show (match parseRows ((rows.drop 1).take 5) with
      | Except.ok ts => ts
      | Except.error _ => []) = []
    rw [he]

theorem insider_fetch_failure_policy_witness :
    getInsiderTrades (Except.error "connection refused") = [] ∧
    getInsiderTrades (Except.ok { status := 404, tinytable := none }) = [] ∧
    getInsiderTrades (Except.ok { status := 200, tinytable := none }) = [] ∧
    getInsiderTrades (Except.ok respGoodTen) = [] ∧
    parseRows [shortRow] = parseRows [] :=
  ⟨insider_fetch_failure_policy.1 "connection refused",
   insider_fetch_failure_policy.2.1 { status := 404, tinytable := none }
     (by norm_num),
   insider_fetch_failure_policy.2.2.1 { status := 200, tinytable := none }
     (by norm_num) rfl,
   insider_fetch_failure_policy.2.2.2.1 respGoodTen [headerRow, goodRow, tenCellRow]
     tenCellRow (by norm_num [respGoodTen]) rfl (by decide) (by decide) (by decide),
   insider_fetch_failure_policy.2.2.2.2 shortRow [] (by decide)⟩

/-! ## Claim C10 -/

/-- Claim C10: a data row with fewer than 8 cells is skipped while other
rows still parse; the `len(cols) >= 8` guard admits a 10-cell row, whose
extraction indexes cell 10 — out of range — so the raised `IndexError`
makes the entire call return `[]`, discarding the trade already parsed
from the preceding well-formed row. -/
theorem guard_gap_discards_parsed_trades :
    (∀ (r : List String) (rs : List (List String)), r.length < 8 →
      parseRows (r :: rs) = parseRows rs) ∧
    getInsiderTrades (Except.ok respGoodShort) = [goodTrade] ∧
    (8 ≤ tenCellRow.length ∧ tenCellRow.length ≤ 10) ∧
    cellText tenCellRow 10 = Except.error "IndexError" ∧
    parseRow tenCellRow = Except.error "IndexError" ∧
    getInsiderTrades (Except.ok respGoodTen) = [] := by
  exact ⟨fun r rs h => parseRows_skip r rs h, by decide, by decide,
    cellText_err_of_ge (by decide), parseRow_oob (by decide) (by decide),
    by decide⟩

theorem guard_gap_discards_parsed_trades_witness :
    parseRows [shortRow, goodRow] = parseRows [goodRow] ∧
    getInsiderTrades (Except.ok respGoodTen) = [] :=
  ⟨guard_gap_discards_parsed_trades.1 shortRow [goodRow] (by decide),
   guard_gap_discards_parsed_trades.2.2.2.2.2⟩

/-! ## Claim C9: structure of `replaceAll` -/

theorem prefixOf_iff {a b : List Char} : a.isPrefixOf b = true ↔ a <+: b :=
  List.isPrefixOf_iff_prefix

theorem infix_of_pref {a b : List Char} (h : a <+: b) : a <:+: b := by
  obtain ⟨t, ht⟩ := h
  exact ⟨[], t, by rw [← ht]; simp⟩

theorem infix_cons_mono {l t : List Char} {a : Char} (h : l <:+: t) :
    l <:+: a :: t := by
  obtain ⟨u, v, huv⟩ := h
  exact ⟨a :: u, v, by rw [← huv]; simp⟩

theorem infix_append_l {l X Y : List Char} (h : l <:+: X) : l <:+: X ++ Y := by
  obtain ⟨u, v, huv⟩ := h
  exact ⟨u, v ++ Y, by rw [← huv]; simp [List.append_assoc]⟩

theorem infix_append_r {l X Y : List Char} (h : l <:+: Y) : l <:+: X ++ Y := by
  obtain ⟨u, v, huv⟩ := h
  exact ⟨X ++ u, v, by rw [← huv]; simp [List.append_assoc]⟩

theorem replaceAllFuel_congr {p : List Char} (hp : p ≠ []) (r : List Char) :
    ∀ (f1 f2 : ℕ) (s : List Char), s.length ≤ f1 → s.length ≤ f2 →
      replaceAllFuel p r f1 s = replaceAllFuel p r f2 s := by
  intro f1
  induction f1 with
  | zero =>
    intro f2 s h1 h2
    have hs : s = [] := List.eq_nil_of_length_eq_zero (by omega)
    subst hs
    cases f2 <;> rfl
  | succ g ih =>
    intro f2 s h1 h2
    cases s with
    | nil => cases f2 <;> rfl
    | cons c t =>
      have hplen : 0 < p.length := List.length_pos.mpr hp
      cases f2 with
      | zero => simp at h2
      | succ h =>
        show (if p.isPrefixOf (c :: t) then
            r ++ replaceAllFuel p r g ((c :: t).drop p.length)
          else c :: replaceAllFuel p r g t) =
          (if p.isPrefixOf (c :: t) then
            r ++ replaceAllFuel p r h ((c :: t).drop p.length)
          else c :: replaceAllFuel p r h t)
        by_cases hb : p.isPrefixOf (c :: t)
        · rw [if_pos hb, if_pos hb,
            ih h ((c :: t).drop p.length)
              (by rw [List.length_drop]; simp at h1 ⊢; omega)
              (by rw [List.length_drop]; simp at h2 ⊢; omega)]
        · rw [if_neg hb, if_neg hb,
            ih h t (by simp at h1; omega) (by simp at h2; omega)]

theorem replaceAll_nil (p r : List Char) : replaceAll p r [] = [] := by
  unfold replaceAll
  split <;> rfl

theorem replaceAll_pos {p : List Char} (hp : p ≠ []) (r : List Char)
    (c : Char) (s : List Char) (hm : p.isPrefixOf (c :: s) = true) :
    replaceAll p r (c :: s) = r ++ replaceAll p r ((c :: s).drop p.length) := by
  have hplen : 0 < p.length := List.length_pos.mpr hp
  have hne : p.isEmpty = false := by
    cases p with
    | nil => exact absurd rfl hp
    | cons a q => rfl
  unfold replaceAll
  rw [hne]
  show (if p.isPrefixOf (c :: s) then
      r ++ replaceAllFuel p r s.length ((c :: s).drop p.length)
    else c :: replaceAllFuel p r s.length s) = _
  rw [if_pos hm]
  simp only [Bool.false_eq_true, if_false]
  congr 1
  exact replaceAllFuel_congr hp r s.length ((c :: s).drop p.length).length
    ((c :: s).drop p.length) (by rw [List.length_drop]; simp; omega) le_rfl

theorem replaceAll_neg (p r : List Char) (c : Char) (s : List Char)
    (hm : p.isPrefixOf (c :: s) = false) :
    replaceAll p r (c :: s) = c :: replaceAll p r s := by
  have hp : p ≠ [] := by
    intro h
    subst h
    simp [List.isPrefixOf] at hm
  have hne : p.isEmpty = false := by
    cases p with
    | nil => exact absurd rfl hp
    | cons a q => rfl
  unfold replaceAll
  rw [hne]
  show (if p.isPrefixOf (c :: s) then
      r ++ replaceAllFuel p r s.length ((c :: s).drop p.length)
    else c :: replaceAllFuel p r s.length s) = _
  rw [hm]
  simp only [Bool.false_eq_true, if_false]

theorem repl_id_of_not_occurs {p : List Char} (hp : p ≠ []) (r : List Char) :
    ∀ s : List Char, ¬ p <:+: s → replaceAll p r s = s := by
  intro s
  induction s with
  | nil => intro _; exact replaceAll_nil p r
  | cons c t ih =>
    intro hninf
    have hb : p.isPrefixOf (c :: t) = false := by
      cases hbb : p.isPrefixOf (c :: t) with
      | false => rfl
      | true => exact absurd (infix_of_pref (prefixOf_iff.mp hbb)) hninf
    rw [replaceAll_neg p r c t hb, ih (fun hh => hninf (infix_cons_mono hh))]

theorem repl_skips_protected {p : List Char} (hp : p ≠ []) (r : List Char) :
    ∀ (t v : List Char), (∀ k, k < t.length → ¬ (t.drop k <+: p)) →
      ¬ p <:+: t → replaceAll p r (t ++ v) = t ++ replaceAll p r v := by
  intro t
  induction t with
  | nil =>
    intro v _ _
    simp
  | cons c t0 ih =>
    intro v hsuff hinf
    have hb : p.isPrefixOf (c :: (t0 ++ v)) = false := by
      cases hbb : p.isPrefixOf (c :: (t0 ++ v)) with
      | false => rfl
      | true =>
        exfalso
        have hpref : p <+: (c :: t0) ++ v := by
          rw [List.cons_append]
          exact prefixOf_iff.mp hbb
        by_cases hle : p.length ≤ (c :: t0).length
        · exact hinf (infix_of_pref
            (List.prefix_of_prefix_length_le hpref ( List.prefix_append _ _) hle))
        · push_neg at hle
          refine hsuff 0 (by simp) ?_
          show (c :: t0).drop 0 <+: p
          rw [List.drop_zero]
          exact List.prefix_of_prefix_length_le ( List.prefix_append _ _) hpref
            (by omega)
    rw [List.cons_append, replaceAll_neg p r c (t0 ++ v) hb,
      ih v
        (fun k hk => by
          have hh := hsuff (k + 1) (by simp only [List.length_cons]; omega)
          rwa [List.drop_succ_cons] at hh)
        (fun hh => hinf (infix_cons_mono hh))]
    rfl

theorem repl_emits {p : List Char} (hp : p ≠ []) (r : List Char) :
    ∀ s : List Char, p <:+: s → r <:+: replaceAll p r s := by
  have main : ∀ (n : ℕ) (s : List Char), s.length ≤ n → p <:+: s →
      r <:+: replaceAll p r s := by
    intro n
    induction n with
    | zero =>
      intro s hlen hinf
      have hs : s = [] := List.eq_nil_of_length_eq_zero (by omega)
      subst hs
      exact absurd (List.infix_nil.mp hinf) hp
    | succ m ih =>
      intro s hlen hinf
      cases s with
      | nil => exact absurd (List.infix_nil.mp hinf) hp
      | cons c s0 =>
        cases hb : p.isPrefixOf (c :: s0) with
        | true =>
          rw [replaceAll_pos hp r c s0 hb]
          exact ⟨[], replaceAll p r ((c :: s0).drop p.length), by simp⟩
        | false =>
          obtain ⟨u, v, huv⟩ := hinf
          cases u with
          | nil =>
            have hpref : p <+: c :: s0 := ⟨v, by simpa using huv⟩
            exact absurd (hb.symm.trans (prefixOf_iff.mpr hpref))
              Bool.false_ne_true
          | cons c2 u0 =>
            have huv2 : c2 :: (u0 ++ p ++ v) = c :: s0 := by
              rw [← huv]
              simp [List.append_assoc]
            injection huv2 with hc hs0
            rw [replaceAll_neg p r c s0 hb]
            exact infix_cons_mono
              (ih s0 (by simp at hlen; omega) ⟨u0, v, hs0⟩)
  exact fun s => main s.length s le_rfl

theorem repl_preserves_protected {p t : List Char} (hp : p ≠ [])
    (h1 : ∀ k, k < p.length → ¬ (p.drop k <+: t))
    (h2 : ¬ t <:+: p)
    (h3 : ∀ k, k < t.length → ¬ (t.drop k <+: p))
    (h4 : ¬ p <:+: t) (r : List Char) :
    ∀ s : List Char, t <:+: s → t <:+: replaceAll p r s := by
  have main : ∀ (n : ℕ) (s : List Char), s.length ≤ n → t <:+: s →
      t <:+: replaceAll p r s := by
    intro n
    induction n with
    | zero =>
      intro s hlen hinf
      have hs : s = [] := List.eq_nil_of_length_eq_zero (by omega)
      subst hs
      rw [replaceAll_nil]
      exact hinf
    | succ m ih =>
      intro s hlen hinf
      cases s with
      | nil =>
        rw [replaceAll_nil]
        exact hinf
      | cons c s0 =>
        obtain ⟨u, v, huv⟩ := hinf
        cases u with
        | nil =>
          -- `t` sits at the head: the scan walks over `t` unchanged.
          have hs : c :: s0 = t ++ v := by rw [← huv]; simp
          rw [hs, repl_skips_protected hp r t v h3 h4]
          exact infix_of_pref ( List.prefix_append _ _)
        | cons c2 u0 =>
          have huv2 : c2 :: (u0 ++ t ++ v) = c :: s0 := by
            rw [← huv]
            simp [List.append_assoc]
          injection huv2 with hc hs0
          subst hc
          subst hs0
          cases hb : p.isPrefixOf (c2 :: (u0 ++ t ++ v)) with
          | false =>
            rw [replaceAll_neg p r c2 (u0 ++ t ++ v) hb]
            refine infix_cons_mono (ih (u0 ++ t ++ v) ?_ ⟨u0, v, rfl⟩)
            simp only [List.length_cons] at hlen
            omega
          | true =>
            have hplen : 0 < p.length := List.length_pos.mpr hp
            have heq : (c2 :: u0) ++ (t ++ v) = c2 :: (u0 ++ t ++ v) := by
              simp [List.append_assoc]
            have hpref : p <+: (c2 :: u0) ++ (t ++ v) := by
              rw [heq]
              exact prefixOf_iff.mp hb
            by_cases hle : p.length ≤ (c2 :: u0).length
            · -- the match lies inside `u`: recurse past it
              rw [replaceAll_pos hp r c2 (u0 ++ t ++ v) hb]
              have hdrop : (c2 :: (u0 ++ t ++ v)).drop p.length
                  = (c2 :: u0).drop p.length ++ (t ++ v) := by
                rw [← heq, List.drop_append_of_le_length hle]
              have hrec : t <:+: replaceAll p r ((c2 :: (u0 ++ t ++ v)).drop p.length) := by
                refine ih _ ?_ ?_
                · rw [List.length_drop]
                  simp only [List.length_cons] at hlen ⊢
                  omega
                · exact ⟨(c2 :: u0).drop p.length, v, by
                    rw [hdrop]
                    simp [List.append_assoc]⟩
              obtain ⟨a, b, hab⟩ := hrec
              exact ⟨r ++ a, b, by rw [← hab]; simp [List.append_assoc]⟩
            · -- overlap of the match with `t`: impossible
              exfalso
              push_neg at hle
              have hu_pref : c2 :: u0 <+: (c2 :: u0) ++ (t ++ v) :=
                List.prefix_append _ _
              have hup : c2 :: u0 <+: p :=
                List.prefix_of_prefix_length_le hu_pref hpref (le_of_lt hle)
              obtain ⟨q, hq⟩ := hup     -- (c2 :: u0) ++ q = p
              obtain ⟨w, hw⟩ := hpref   -- p ++ w = (c2 :: u0) ++ (t ++ v)
              have htv : t ++ v = q ++ w := by
                have h5 : (c2 :: u0) ++ (q ++ w) = (c2 :: u0) ++ (t ++ v) := by
                  rw [← List.append_assoc, hq, hw]
                exact (List.append_cancel_left h5).symm
              have hqdrop : q = p.drop (c2 :: u0).length := by
                rw [← hq, List.drop_left]
              by_cases hqt : q.length ≤ t.length
              · refine h1 (c2 :: u0).length hle ?_
                rw [← hqdrop]
                exact List.prefix_of_prefix_length_le ⟨w, htv.symm⟩
                  ( List.prefix_append _ _) hqt
              · push_neg at hqt
                have htq : t <+: q :=
                  List.prefix_of_prefix_length_le ( List.prefix_append t v)
                    ⟨w, htv.symm⟩ (le_of_lt hqt)
                refine h2 ?_
                obtain ⟨x, hx⟩ := htq   -- t ++ x = q
                refine ⟨p.take (c2 :: u0).length, x, ?_⟩
                rw [List.append_assoc, hx, hqdrop]
                exact List.take_append_drop _ _
  exact fun s => main s.length s le_rfl

theorem repl_single {p : List Char} (hp : p ≠ [])
    (hso : ∀ k, k < p.length → 0 < k → ¬ (p.drop k <+: p)) (r : List Char) :
    ∀ u v : List Char, ¬ p <:+: u → ¬ p <:+: v →
      replaceAll p r (u ++ p ++ v) = u ++ r ++ v := by
  intro u
  induction u with
  | nil =>
    intro v hu hv
    cases p with
    | nil => exact absurd rfl hp
    | cons a p0 =>
      show replaceAll (a :: p0) r (a :: (p0 ++ v)) = r ++ v
      have hb : (a :: p0).isPrefixOf (a :: (p0 ++ v)) = true := by
        refine prefixOf_iff.mpr ?_
        show (a :: p0) <+: (a :: p0) ++ v
        exact List.prefix_append _ _
      rw [replaceAll_pos hp r a (p0 ++ v) hb]
      have hdrop : (a :: (p0 ++ v)).drop (a :: p0).length = v := by
        show ((a :: p0) ++ v).drop (a :: p0).length = v
        exact List.drop_left _ _
      rw [hdrop, repl_id_of_not_occurs hp r v hv]
  | cons c u0 ih =>
    intro v hu hv
    show replaceAll p r (c :: (u0 ++ p ++ v)) = (c :: u0) ++ r ++ v
    have hb : p.isPrefixOf (c :: (u0 ++ p ++ v)) = false := by
      cases hbb : p.isPrefixOf (c :: (u0 ++ p ++ v)) with
      | false => rfl
      | true =>
        exfalso
        have heq : (c :: u0) ++ (p ++ v) = c :: (u0 ++ p ++ v) := by
          simp [List.append_assoc]
        have hpref : p <+: (c :: u0) ++ (p ++ v) := by
          rw [heq]
          exact prefixOf_iff.mp hbb
        by_cases hle : p.length ≤ (c :: u0).length
        · refine hu (infix_of_pref ?_)
          exact List.prefix_of_prefix_length_le hpref
            ( List.prefix_append _ _) hle
        · push_neg at hle
          have hup : c :: u0 <+: p :=
            List.prefix_of_prefix_length_le ( List.prefix_append _ _) hpref
              (le_of_lt hle)
          obtain ⟨q, hq⟩ := hup     -- (c :: u0) ++ q = p
          obtain ⟨w, hw⟩ := hpref   -- p ++ w = (c :: u0) ++ (p ++ v)
          have hpv : p ++ v = q ++ w := by
            have h5 : (c :: u0) ++ (q ++ w) = (c :: u0) ++ (p ++ v) := by
              rw [← List.append_assoc, hq, hw]
            exact (List.append_cancel_left h5).symm
          have hqdrop : q = p.drop (c :: u0).length := by
            rw [← hq, List.drop_left]
          refine hso (c :: u0).length hle (by simp) ?_
          rw [← hqdrop]
          refine List.prefix_of_prefix_length_le ⟨w, hpv.symm⟩
            ( List.prefix_append _ _) ?_
          have hlq : (c :: u0).length + q.length = p.length := by
            rw [← hq, List.length_append]
          omega
    rw [replaceAll_neg p r c (u0 ++ p ++ v) hb,
      ih v (fun hh => hu (infix_cons_mono hh)) hv]
    rfl

theorem infix_append_cases {q X Y : List Char} (h : q <:+: X ++ Y) :
    q <:+: X ∨ q <:+: Y ∨
    ∃ k, 0 < k ∧ k < q.length ∧ q.take k <:+ X ∧ q.drop k <+: Y := by
  obtain ⟨a, b, hab⟩ := h    -- a ++ q ++ b = X ++ Y
  by_cases h1 : a.length + q.length ≤ X.length
  · left
    have hpref : a ++ q <+: X ++ Y :=
      ⟨b, by rw [← hab]⟩
    have haq : a ++ q <+: X :=
      List.prefix_of_prefix_length_le hpref ( List.prefix_append _ _)
        (by rw [List.length_append]; omega)
    obtain ⟨rest, hrest⟩ := haq   -- (a ++ q) ++ rest = X
    exact ⟨a, rest, by rw [← hrest]⟩
  · by_cases h2 : X.length ≤ a.length
    · right; left
      have hapref : a <+: X ++ Y :=
        ⟨q ++ b, by rw [← hab]; simp [List.append_assoc]⟩
      have hXa : X <+: a :=
        List.prefix_of_prefix_length_le ( List.prefix_append _ _) hapref h2
      obtain ⟨a2, ha2⟩ := hXa    -- X ++ a2 = a
      have hY : Y = a2 ++ (q ++ b) := by
        have h5 : X ++ Y = X ++ (a2 ++ (q ++ b)) := by
          rw [← hab, ← ha2]
          simp [List.append_assoc]
        exact List.append_cancel_left h5
      exact ⟨a2, b, by rw [hY]; simp [List.append_assoc]⟩
    · right; right
      push_neg at h1 h2
      have hapref : a <+: X ++ Y :=
        ⟨q ++ b, by rw [← hab]; simp [List.append_assoc]⟩
      have haX : a <+: X :=
        List.prefix_of_prefix_length_le hapref ( List.prefix_append _ _)
          (by omega)
      obtain ⟨X2, hX2⟩ := haX   -- a ++ X2 = X
      have hX2len : X2.length = X.length - a.length := by
        have hlen := congrArg List.length hX2
        rw [List.length_append] at hlen
        omega
      have hX2Y : X2 ++ Y = q ++ b := by
        have h5 : a ++ (X2 ++ Y) = a ++ (q ++ b) := by
          rw [← List.append_assoc, hX2, ← hab]
          simp [List.append_assoc]
        exact List.append_cancel_left h5
      have hX2q : X2 <+: q :=
        List.prefix_of_prefix_length_le ⟨Y, hX2Y⟩ ( List.prefix_append _ _)
          (by omega)
      have htake : q.take (X.length - a.length) = X2 := by
        obtain ⟨z, hz⟩ := hX2q   -- X2 ++ z = q
        rw [← hz, ← hX2len, List.take_left]
      refine ⟨X.length - a.length, by omega, by omega, ?_, ?_⟩
      · exact ⟨a, by rw [htake, hX2]⟩
      · have h6 : X2 ++ Y
            = X2 ++ (q.drop (X.length - a.length) ++ b) := by
          rw [hX2Y, ← htake, ← List.append_assoc, List.take_append_drop]
        exact ⟨b, (List.append_cancel_left h6).symm⟩

theorem not_occurs_in_glued {q t : List Char}
    (hq1 : ¬ q <:+: t)
    (hq2 : ∀ k, k < q.length → 0 < k → ¬ (q.take k <:+ t))
    (hq3 : ∀ k, k < q.length → ¬ (q.drop k <+: t))
    (hq4 : ¬ t <:+: q)
    {u v : List Char} (hu : ¬ q <:+: u) (hv : ¬ q <:+: v) :
    ¬ q <:+: u ++ (t ++ v) := by
  intro hocc
  rcases infix_append_cases hocc with h | h | ⟨k, hk0, hkq, hXsuff, hYpref⟩
  · exact hu h
  · rcases infix_append_cases h with hh | hh | ⟨k, hk0, hkq, hXs, hYp⟩
    · exact hq1 hh
    · exact hv hh
    · exact hq2 k hkq hk0 hXs
  · by_cases hlen : (q.drop k).length ≤ t.length
    · exact hq3 k hkq
        (List.prefix_of_prefix_length_le hYpref ( List.prefix_append _ _) hlen)
    · push_neg at hlen
      have htq : t <+: q.drop k :=
        List.prefix_of_prefix_length_le ( List.prefix_append t v) hYpref
          (le_of_lt hlen)
      refine hq4 ?_
      obtain ⟨x, hx⟩ := htq
      exact ⟨q.take k, x, by
        rw [List.append_assoc, hx]
        exact List.take_append_drop _ _⟩

/-- Claim C9: behaviour of `format_analysis` on the Buy recommendation.
(i) If the raw response contains the exact substring
`Recommendation: Buy`, the formatted output contains the wrapped styled
version of it. (ii) If the response is `u ++ "Recommendation: Buy" ++ v`
with no other recognized phrase present and no further Buy occurrence in
`u` or `v`, the output is exactly `u ++ styled ++ v` — the phrase is
wrapped and all other text is unchanged. (iii) If no recognized phrase
occurs in the response, the formatted output equals the raw response. -/
theorem format_analysis_styling :
    (∀ s : List Char, buyPat <:+: s → buyStyled <:+: formatAnalysisL s) ∧
    (∀ u v : List Char,
      (∀ pr ∈ stages, pr.1 ≠ buyPat → ¬ pr.1 <:+: u ++ buyPat ++ v) →
      ¬ buyPat <:+: u → ¬ buyPat <:+: v →
      formatAnalysisL (u ++ buyPat ++ v) = u ++ buyStyled ++ v) ∧
    (∀ s : List Char, (∀ pr ∈ stages, ¬ pr.1 <:+: s) →
      formatAnalysisL s = s) := by
  refine ⟨?_, ?_, ?_⟩
  · -- (i) the styled replacement, once emitted, survives every later pass
    intro s hbuy
    simp only [formatAnalysisL, stages, List.foldl_cons, List.foldl_nil]
    refine repl_preserves_protected (by decide) (by decide) (by decide)
      (by decide) (by decide) _ _ ?_
    refine repl_preserves_protected (by decide) (by decide) (by decide)
      (by decide) (by decide) _ _ ?_
    refine repl_preserves_protected (by decide) (by decide) (by decide)
      (by decide) (by decide) _ _ ?_
    refine repl_preserves_protected (by decide) (by decide) (by decide)
      (by decide) (by decide) _ _ ?_
    refine repl_preserves_protected (by decide) (by decide) (by decide)
      (by decide) (by decide) _ _ ?_
    refine repl_preserves_protected (by decide) (by decide) (by decide)
      (by decide) (by decide) _ _ ?_
    refine repl_preserves_protected (by decide) (by decide) (by decide)
      (by decide) (by decide) _ _ ?_
    refine repl_preserves_protected (by decide) (by decide) (by decide)
      (by decide) (by decide) _ _ ?_
    refine repl_preserves_protected (by decide) (by decide) (by decide)
      (by decide) (by decide) _ _ ?_
    refine repl_preserves_protected (by decide) (by decide) (by decide)
      (by decide) (by decide) _ _ ?_
    refine repl_emits (by decide) _ _ ?_
    refine repl_preserves_protected (by decide) (by decide) (by decide)
      (by decide) (by decide) _ _ ?_
    refine repl_preserves_protected (by decide) (by decide) (by decide)
      (by decide) (by decide) _ _ ?_
    refine repl_preserves_protected (by decide) (by decide) (by decide)
      (by decide) (by decide) _ _ ?_
    exact hbuy
  · -- (ii) every pass but the Buy one is the identity; the Buy pass
    -- rewrites the unique occurrence in place
    intro u v hother hu hv
    simp only [stages, List.forall_mem_cons] at hother
    obtain ⟨g1, g2, g3, g4, g5, g6, g7, g8, g9, g10, g11, g12, g13, g14, -⟩ :=
      hother
    have hglue : ∀ q : List Char,
        (¬ q <:+: u) → (¬ q <:+: v) → (¬ q <:+: buyStyled) →
        (∀ k, k < q.length → 0 < k → ¬ (q.take k <:+ buyStyled)) →
        (∀ k, k < q.length → ¬ (q.drop k <+: buyStyled)) →
        (¬ buyStyled <:+: q) → ¬ q <:+: u ++ buyStyled ++ v := by
      intro q a b c d e f hocc
      refine not_occurs_in_glued c d e f a b ?_
      rw [← List.append_assoc]
      exact hocc
    simp only [formatAnalysisL, stages, List.foldl_cons, List.foldl_nil]
    rw [repl_id_of_not_occurs (by decide) _ _ (g1 (by decide)),
      repl_id_of_not_occurs (by decide) _ _ (g2 (by decide)),
      repl_id_of_not_occurs (by decide) _ _ (g3 (by decide)),
      repl_single (by decide) (by decide) _ u v hu hv,
      repl_id_of_not_occurs (by decide) _ _
        (hglue _ (fun hh => g5 (by decide) (infix_append_l (infix_append_l hh)))
          (fun hh => g5 (by decide) (infix_append_r hh))
          (by decide) (by decide) (by decide) (by decide)),
      repl_id_of_not_occurs (by decide) _ _
        (hglue _ (fun hh => g6 (by decide) (infix_append_l (infix_append_l hh)))
          (fun hh => g6 (by decide) (infix_append_r hh))
          (by decide) (by decide) (by decide) (by decide)),
      repl_id_of_not_occurs (by decide) _ _
        (hglue _ (fun hh => g7 (by decide) (infix_append_l (infix_append_l hh)))
          (fun hh => g7 (by decide) (infix_append_r hh))
          (by decide) (by decide) (by decide) (by decide)),
      repl_id_of_not_occurs (by decide) _ _
        (hglue _ (fun hh => g8 (by decide) (infix_append_l (infix_append_l hh)))
          (fun hh => g8 (by decide) (infix_append_r hh))
          (by decide) (by decide) (by decide) (by decide)),
      repl_id_of_not_occurs (by decide) _ _
        (hglue _ (fun hh => g9 (by decide) (infix_append_l (infix_append_l hh)))
          (fun hh => g9 (by decide) (infix_append_r hh))
          (by decide) (by decide) (by decide) (by decide)),
      repl_id_of_not_occurs (by decide) _ _
        (hglue _ (fun hh => g10 (by decide) (infix_append_l (infix_append_l hh)))
          (fun hh => g10 (by decide) (infix_append_r hh))
          (by decide) (by decide) (by decide) (by decide)),
      repl_id_of_not_occurs (by decide) _ _
        (hglue _ (fun hh => g11 (by decide) (infix_append_l (infix_append_l hh)))
          (fun hh => g11 (by decide) (infix_append_r hh))
          (by decide) (by decide) (by decide) (by decide)),
      repl_id_of_not_occurs (by decide) _ _
        (hglue _ (fun hh => g12 (by decide) (infix_append_l (infix_append_l hh)))
          (fun hh => g12 (by decide) (infix_append_r hh))
          (by decide) (by decide) (by decide) (by decide)),
      repl_id_of_not_occurs (by decide) _ _
        (hglue _ (fun hh => g13 (by decide) (infix_append_l (infix_append_l hh)))
          (fun hh => g13 (by decide) (infix_append_r hh))
          (by decide) (by decide) (by decide) (by decide)),
      repl_id_of_not_occurs (by decide) _ _
        (hglue _ (fun hh => g14 (by decide) (infix_append_l (infix_append_l hh)))
          (fun hh => g14 (by decide) (infix_append_r hh))
          (by decide) (by decide) (by decide) (by decide))]
  · -- (iii) with no phrase present every pass is the identity
    intro s hnone
    simp only [stages, List.forall_mem_cons] at hnone
    obtain ⟨n1, n2, n3, n4, n5, n6, n7, n8, n9, n10, n11, n12, n13, n14, -⟩ :=
      hnone
    simp only [formatAnalysisL, stages, List.foldl_cons, List.foldl_nil]
    rw [repl_id_of_not_occurs (by decide) _ _ n1,
      repl_id_of_not_occurs (by decide) _ _ n2,
      repl_id_of_not_occurs (by decide) _ _ n3,
      repl_id_of_not_occurs (by decide) _ _ n4,
      repl_id_of_not_occurs (by decide) _ _ n5,
      repl_id_of_not_occurs (by decide) _ _ n6,
      repl_id_of_not_occurs (by decide) _ _ n7,
      repl_id_of_not_occurs (by decide) _ _ n8,
      repl_id_of_not_occurs (by decide) _ _ n9,
      repl_id_of_not_occurs (by decide) _ _ n10,
      repl_id_of_not_occurs (by decide) _ _ n11,
      repl_id_of_not_occurs (by decide) _ _ n12,
      repl_id_of_not_occurs (by decide) _ _ n13,
      repl_id_of_not_occurs (by decide) _ _ n14]

theorem format_analysis_styling_witness :
    buyStyled <:+: formatAnalysisL "ok Recommendation: Buy now".data ∧
    formatAnalysisL ("AB ".data ++ buyPat ++ " CD".data)
      = "AB ".data ++ buyStyled ++ " CD".data ∧
    formatAnalysisL "hello".data = "hello".data :=
  ⟨format_analysis_styling.1 "ok Recommendation: Buy now".data (by decide),
   format_analysis_styling.2.1 "AB ".data " CD".data (by decide) (by decide)
     (by decide),
   format_analysis_styling.2.2 "hello".data (by decide)⟩

end StockAnalysis
